import Mathlib

/-
Verification development for the per-sequence MMEJ analysis engine of the
guido repository (src/guido/guido.py).

Sequences are modelled as `List Char`.  Python slices (with negative-index
wrapping and clamping) are modelled by `pySlice`.  Python integers are `Int`
where the source can go negative, `Nat` where it cannot.  Fallible source
code (KeyError on dictionary lookup, ZeroDivisionError) is modelled with
`Except String`.  Floating-point score arithmetic is idealised over `ℝ`,
with Python's `round(x, 3)` modelled by `pyRound3` (round half up; the
source's float round-half-even differs only at exact ties, which never
arise at the inputs used in the theorems below).
-/

deriving instance DecidableEq for Except

namespace guido

/-- Python index semantics: a negative index counts from the end. -/
def pyIdx (n : ℕ) (i : Int) : Int :=
  if i < 0 then i + n else i

/-- Clamp an index into `[0, n]`, as Python slicing does. -/
def clampN (n : ℕ) (i : Int) : ℕ :=
  (max 0 (min (n : Int) i)).toNat

/-- Python slice `s[a:b]` on a character list, with negative-index wrapping
and clamping at both ends. -/
def pySlice (s : List Char) (a b : Int) : List Char :=
  (s.take (clampN s.length (pyIdx s.length b))).drop (clampN s.length (pyIdx s.length a))

/-- The IUPAC code table of `find_breaks` (guido.py lines 62-76), as the set
of concrete bases each letter stands for; `none` models the KeyError raised
by `iupac_dict[letter]` on any other character. -/
def iupac_dict (c : Char) : Option (List Char) :=
  match c with
  | 'A' => some ['A']
  | 'C' => some ['C']
  | 'G' => some ['G']
  | 'T' => some ['T']
  | 'R' => some ['A', 'G']
  | 'Y' => some ['C', 'T']
  | 'S' => some ['G', 'C']
  | 'W' => some ['A', 'T']
  | 'K' => some ['G', 'T']
  | 'M' => some ['A', 'C']
  | 'B' => some ['C', 'G', 'T']
  | 'D' => some ['A', 'G', 'T']
  | 'H' => some ['A', 'C', 'T']
  | 'V' => some ['A', 'C', 'G']
  | 'N' => some ['A', 'C', 'G', 'T']
  | _ => none

/-- Expansion of an IUPAC PAM string into a list of character classes
(guido.py line 77); errors on an invalid letter, as the source's dictionary
lookup does. -/
def expandIupac : List Char → Except String (List (List Char))
  | [] => .ok []
  | c :: cs =>
    match iupac_dict c with
    | none => .error "KeyError"
    | some cls => (expandIupac cs).map (cls :: ·)

/-- The complement table of `find_breaks` (guido.py line 79); `none` models
the KeyError raised on any base outside A/C/G/T (notably on N). -/
def complement (c : Char) : Option Char :=
  match c with
  | 'A' => some 'T'
  | 'C' => some 'G'
  | 'G' => some 'C'
  | 'T' => some 'A'
  | _ => none

/-- Complement every character, failing on the first unknown base; applied
to the reversed sequence this is the reverse complement of guido.py line 80. -/
def complementAll : List Char → Except String (List Char)
  | [] => .ok []
  | c :: cs =>
    match complement c with
    | none => .error "KeyError"
    | some d => (complementAll cs).map (d :: ·)

/-- Does the character-class pattern match the sequence at offset `p`?  This
is the semantics of the regex built from the expanded IUPAC PAM. -/
def matchesAt (s : List Char) (cls : List (List Char)) (p : ℕ) : Bool :=
  decide (cls.length + p ≤ s.length) &&
    (((s.drop p).take cls.length).zip cls).all fun pc => pc.2.contains pc.1

/-- All match start offsets of the zero-width lookahead scan
`re.finditer(r'(?=(pam))', s)` (guido.py lines 82-83): every position where
the PAM pattern matches, in increasing order, overlaps included. -/
def findPamPositions (s : List Char) (cls : List (List Char)) : List ℕ :=
  (List.range (s.length + 1)).filter (matchesAt s cls)

/-- The retained PAM hits of guido.py lines 82-83: a zero-width match at `p`
(so `m.start(0) = m.end(0) = p`) is kept iff `p - min_flanking > 0` and
`p + min_flanking < len(s)`. -/
def keptPams (s : List Char) (cls : List (List Char)) (minF : ℕ) : List ℕ :=
  (findPamPositions s cls).filter fun p =>
    decide (0 < (p : Int) - minF) && decide ((p : Int) + minF < (s.length : Int))

/-- One cut-site record of `break_dict` (guido.py lines 29-49). -/
structure Break where
  rel_break : Int
  brk : Int
  seq : List Char
  pam : List Char
  guide : List Char
  strand : Char
  deriving DecidableEq, Repr

/-- The record built for one PAM hit at strand-local offset `pam`
(guido.py lines 29-49).  The source only ever passes strand '+' or '-', for
which its if/elif stores the strand verbatim. -/
def mkBreak (sequence : List Char) (pam_len maxF : ℕ) (strand : Char) (pam : ℕ) : Break :=
  let br : Int := (pam : Int) - pam_len
  let left : Int := if br - maxF < 0 then 0 else br - maxF
  let right : Int := br + maxF
  { rel_break := br - left
    brk := br
    seq := pySlice sequence left right
    pam := pySlice sequence pam ((pam : Int) + pam_len)
    guide := pySlice sequence ((pam : Int) - 20) ((pam : Int) + pam_len)
    strand := strand }

/-- `break_dict` (guido.py lines 21-51): one record per PAM hit. -/
def break_dict (sequence : List Char) (pams : List ℕ) (pam_len maxF : ℕ)
    (strand : Char) : List Break :=
  pams.map (mkBreak sequence pam_len maxF strand)

/-- `find_breaks` (guido.py lines 53-88): expand the PAM, reverse-complement
the sequence (KeyError on unknown bases), scan both strands and build the
records.  The IUPAC expansion happens before the reverse complement, as in
the source. -/
def find_breaks (sequence : List Char) (minF maxF : ℕ) (pam : List Char) :
    Except String (List Break) :=
  match expandIupac pam with
  | .error e => .error e
  | .ok cls =>
    match complementAll sequence.reverse with
    | .error e => .error e
    | .ok rev_seq =>
      .ok (break_dict sequence (keptPams sequence cls minF) pam.length maxF '+' ++
           break_dict rev_seq (keptPams rev_seq cls minF) pam.length maxF '-')

/-- A genomic region `(chromosome, start, end, seq)` as unpacked by
`get_cut_sites` (guido.py line 99); `stop` is the source's `end`. -/
structure Region where
  chrom : String
  start : Int
  stop : Int
  seq : List Char
  deriving DecidableEq, Repr

/-- A cut-site record enriched with genomic context by `get_cut_sites`
(guido.py lines 102-106); `g_start`/`g_end` are the bounds of the source's
`guide_loc` triple, `chrom` its chromosome. -/
structure CutSite extends Break where
  chrom : String
  break_abs : Int
  g_start : Int
  g_end : Int
  deriving DecidableEq, Repr

/-- `get_cut_sites` (guido.py lines 91-108): absolute break coordinate
`break + start` and the fixed-width guide-location interval
`(break_abs - 17, break_abs + 3 + len(pam))`, for every cut of both strands. -/
def get_cut_sites (region : Region) (minF maxF : ℕ) (pam : List Char) :
    Except String (List CutSite) :=
  match find_breaks region.seq minF maxF pam with
  | .error e => .error e
  | .ok cuts =>
    .ok (cuts.map fun cut =>
      let break_abs := cut.brk + region.start
      { toBreak := cut
        chrom := region.chrom
        break_abs := break_abs
        g_start := break_abs - 17
        g_end := break_abs + 3 + pam.length })

/-- Python substring containment `p in s`. -/
def isSubstring (p s : List Char) : Bool :=
  (List.range (s.length + 1)).any fun i => (s.drop i).take p.length == p

/-- `find_microhomologies` (guido.py lines 111-133): for every k-mer length
`k` from `len(left_seq) - 1` down to `2` (the source iterates
`reversed(xrange(2, len(left_seq)))`), collect every window of the left arm
of that length which also occurs in the right arm. -/
def find_microhomologies (left_seq right_seq : List Char) : List (List Char) :=
  ((List.range left_seq.length).reverse.filter fun k => decide (2 ≤ k)).flatMap fun k =>
    ((List.range (left_seq.length - k + 1)).map fun i => (left_seq.drop i).take k).filter
      fun kmer => isSubstring kmer right_seq

/-- Literal match of `pat` at offset `i` of `s` (the patterns handed to
`re.compile` are plain base strings, so the regex is a literal). -/
def litMatchAt (pat s : List Char) (i : ℕ) : Bool :=
  (s.drop i).take pat.length == pat

/-- One step list of `re.finditer(pattern, s)` match starts: repeatedly take
the leftmost match at or after the current position, then resume searching
after its end — so occurrences overlapping a previous match are skipped.
The fuel `s.length + 1` is exact: each step advances the position by at
least one and matches start at offsets `≤ s.length`. -/
def findOccsAux (pat s : List Char) : ℕ → ℕ → List ℕ
  | 0, _ => []
  | fuel + 1, pos =>
    match ((List.range (s.length + 1)).filter fun i =>
        decide (pos ≤ i) && litMatchAt pat s i).head? with
    | none => []
    | some i => i :: findOccsAux pat s fuel (i + max pat.length 1)

/-- Match start offsets of `p.finditer(s)` (guido.py lines 163-164):
non-overlapping, leftmost-first. -/
def findOccs (pat s : List Char) : List ℕ :=
  findOccsAux pat s (s.length + 1) 0

/-- `pat` truly occurs at offset `i` of `s` (an arbitrary occurrence, not
tied to the finditer enumeration). -/
def occursAt (pat s : List Char) (i : ℕ) : Prop :=
  i + pat.length ≤ s.length ∧ (s.drop i).take pat.length = pat

instance (pat s : List Char) (i : ℕ) : Decidable (occursAt pat s i) := by
  unfold occursAt; exact inferInstance

/-- GC count of a pattern (guido.py line 167): occurrences of G plus
occurrences of C. -/
def patternGC (p : List Char) : ℕ :=
  (p.filter fun c => c == 'G').length + (p.filter fun c => c == 'C').length

/-- One candidate end-joining outcome (the `pattern_dict` of guido.py lines
175-209).  `deletion_length` is a local variable in the source, recorded
here because both the score and the frame-shift flag derive from it; the
source's `pattern_score` float is recovered by the separate function
`outcomeScore`, which is fully determined by the stored fields. -/
structure Outcome where
  left_disp : List Char
  left_seq : List Char
  left_seq_position : ℕ
  right_disp : List Char
  right_seq : List Char
  right_seq_position : ℕ
  pattern : List Char
  deletion_length : Int
  deletion_seq : List Char
  frame_shift : Char
  deriving DecidableEq, Repr

/-- The outcome built for one (left occurrence, right occurrence) pair
(guido.py lines 173-209). -/
def mkOutcome (left_seq right_seq pat : List Char) (l r : ℕ) : Outcome :=
  let left_deletion_length : ℕ := left_seq.length - l
  let deletion_length : Int := ((left_seq.length : Int) - l) + r
  let deletion_seq := left_seq.drop l ++ right_seq.take r
  { left_disp := left_seq.take l ++ List.replicate left_deletion_length '-'
    left_seq := left_seq.take l
    left_seq_position := l
    right_disp := List.replicate r '+' ++ right_seq.drop r
    right_seq := right_seq.drop r
    right_seq_position := l + deletion_seq.length
    pattern := pat
    deletion_length := deletion_length
    deletion_seq := deletion_seq
    frame_shift := if deletion_length % 3 == 0 then '-' else '+' }

/-- The full candidate outcome list generated for one cut (guido.py lines
159-212): for each discovered pattern, the cartesian product of its
finditer occurrence lists in the two arms. -/
def gen_pattern_list (left_seq right_seq : List Char) : List Outcome :=
  (find_microhomologies left_seq right_seq).flatMap fun pat =>
    (findOccs pat left_seq).flatMap fun l =>
      (findOccs pat right_seq).map fun r => mkOutcome left_seq right_seq pat l r

/-- Leftmost index of `sub` in `s`, or `-1` (Python `str.find`, guido.py
line 229). -/
def strFind (sub s : List Char) : Int :=
  match ((List.range (s.length + 1)).filter fun i => litMatchAt sub s i).head? with
  | some i => (i : Int)
  | none => -1

/-- The nested-pattern filter of guido.py lines 220-241: an outcome is kept
iff for every candidate `x` of the complete deduplicated list, it is not a
proper sub-pattern of `x` sitting at the exact same absolute position on
both sides. -/
def passOutcome (all : List Outcome) (o : Outcome) : Bool :=
  all.all fun x =>
    if isSubstring o.pattern x.pattern && o.pattern != x.pattern then
      let off := strFind o.pattern x.pattern
      !(decide ((o.left_seq_position : Int) - ((x.left_seq_position : Int) + off) = 0) &&
        decide ((o.right_seq_position : Int) - ((x.right_seq_position : Int) + off) = 0))
    else true

/-- Python `round(x, 3)` idealised over the reals: round `1000 * x` to an
integer and divide back.  Mathlib's `round` rounds half up, Python's float
round rounds half to even; they agree except at exact midpoints, which never
occur at the irrational values reached below. -/
noncomputable def pyRound3 (x : ℝ) : ℝ :=
  (round (1000 * x) : Int) / 1000

/-- The score of guido.py lines 190-191:
`100 * round(1 / exp(deletion_length / length_weight), 3)
     * ((len(pattern) - pattern_GC) + pattern_GC * 2)`. -/
noncomputable def pattern_score (length_weight : ℝ) (deletion_length : Int)
    (pat : List Char) : ℝ :=
  let pattern_GC : ℕ := patternGC pat
  let length_factor : ℝ := pyRound3 (1 / Real.exp ((deletion_length : ℝ) / length_weight))
  100 * length_factor * (((pat.length : ℝ) - pattern_GC) + pattern_GC * 2)

/-- The `pattern_score` stored in an outcome dict, as a function of the
outcome's fields (it is determined by the deletion length and the pattern). -/
noncomputable def outcomeScore (w : ℝ) (o : Outcome) : ℝ :=
  pattern_score w o.deletion_length o.pattern

/-- Stable insertion into an ascending-score list (a later element goes
after equal-scored earlier ones, as Python's stable sort does). -/
noncomputable def insertAsc (w : ℝ) (o : Outcome) : List Outcome → List Outcome
  | [] => [o]
  | x :: xs =>
    if outcomeScore w o ≤ outcomeScore w x then o :: x :: xs else x :: insertAsc w o xs

/-- `sorted(l, key=lambda x: x['pattern_score'])` (guido.py line 218). -/
noncomputable def scoreSortAsc (w : ℝ) : List Outcome → List Outcome
  | [] => []
  | o :: rest => insertAsc w o (scoreSortAsc w rest)

/-- Stable insertion into a descending-score list. -/
noncomputable def insertDesc (w : ℝ) (o : Outcome) : List Outcome → List Outcome
  | [] => [o]
  | x :: xs =>
    if outcomeScore w x ≤ outcomeScore w o then o :: x :: xs else x :: insertDesc w o xs

/-- `sorted(l, key=lambda x: x['pattern_score'], reverse=True)`
(guido.py line 268). -/
noncomputable def scoreSortDesc (w : ℝ) : List Outcome → List Outcome
  | [] => []
  | o :: rest => insertDesc w o (scoreSortDesc w rest)

/-- A cut site after `simulate_end_joining`: the record plus its filtered
outcome list. -/
structure SimCut extends CutSite where
  pattern_list : List Outcome

/-- `simulate_end_joining` (guido.py lines 136-246): split each window at
its relative break, generate every candidate outcome, drop exact
duplicates (the source's set-of-sorted-item-tuples; modelled by `dedup`,
which keeps one representative per value — the set's iteration order is
unspecified in Python), order by ascending score and keep only outcomes
passing the nested-pattern filter against the complete deduplicated list. -/
noncomputable def simulate_end_joining (w : ℝ) (cut_list : List CutSite) : List SimCut :=
  cut_list.map fun cut =>
    let br := cut.rel_break
    let s := cut.seq
    let left_seq := pySlice s 0 br
    let right_seq := pySlice s br s.length
    let pattern_list := (gen_pattern_list left_seq right_seq).dedup
    let pattern_list_filtered :=
      (scoreSortAsc w pattern_list).filter (passOutcome pattern_list)
    { toCutSite := cut, pattern_list := pattern_list_filtered }

/-- A known variant with genomic start and end (`var['start']`,
`var['end']`; `vend` is the source's `end`). -/
structure Variant where
  vstart : Int
  vend : Int

/-- A guide record produced by `evaluate_guides` (guido.py lines 289-301);
`variants_in` is the source's `variants` entry. -/
structure GuideRec extends SimCut where
  complete_score : ℝ
  sum_score : ℝ
  variants_in : List Variant
  top_patterns : List Outcome
  wt_prob : ℕ

/-- `evaluate_guides` (guido.py lines 249-306): drop every record whose
window contains 'N'; for the rest take the top `n_patterns` outcomes by
descending score, sum their scores and the scores of the out-of-frame ones,
and form `complete_score = oof_score / score * 100` — with no guard, so a
zero total score raises ZeroDivisionError, modelled as an error result.  A
variant counts as overlapping iff the guide interval contains it entirely;
`wt_prob` is the count of overlapping variants, or 1 if there are none.
The scores the source reads back from the dicts are recovered through
`outcomeScore w`, so the length weight `w` is a parameter here. -/
noncomputable def evaluate_guides (w : ℝ) (n_patterns : ℕ) (variants : List Variant) :
    List SimCut → Except String (List GuideRec)
  | [] => .ok []
  | cut_site :: rest =>
    if cut_site.seq.contains 'N' then
      evaluate_guides w n_patterns variants rest
    else
      let sorted_pattern_list := (scoreSortDesc w cut_site.pattern_list).take n_patterns
      let variants_in_guide := variants.filter fun v =>
        decide (cut_site.g_start ≤ v.vstart) && decide (cut_site.g_end ≥ v.vend)
      let wt_prob := if variants_in_guide.isEmpty then 1 else variants_in_guide.length
      let score := (sorted_pattern_list.map (outcomeScore w)).sum
      let oof_score :=
        ((sorted_pattern_list.filter fun o => o.frame_shift == '+').map (outcomeScore w)).sum
      if score = 0 then .error "ZeroDivisionError"
      else
        match evaluate_guides w n_patterns variants rest with
        | .error e => .error e
        | .ok rest' =>
          .ok ({ toSimCut := cut_site
                 complete_score := oof_score / score * 100
                 sum_score := score
                 variants_in := variants_in_guide
                 top_patterns := sorted_pattern_list
                 wt_prob := wt_prob } :: rest')

/-! Helper lemmas shared by the claim theorems. -/

lemma clampN_le (n : ℕ) (i : Int) : clampN n i ≤ n := by
  unfold clampN; omega

lemma pySlice_length (s : List Char) (a b : Int) :
    (pySlice s a b).length =
      clampN s.length (pyIdx s.length b) - clampN s.length (pyIdx s.length a) := by
  have h := clampN_le s.length (pyIdx s.length b)
  simp [pySlice]
  omega

lemma pySlice_of_nonneg (s : List Char) (a b : Int) (ha : 0 ≤ a) (hab : a ≤ b)
    (hb : b ≤ (s.length : Int)) :
    pySlice s a b = (s.drop a.toNat).take (b.toNat - a.toNat) := by
  unfold pySlice pyIdx clampN
  rw [if_neg (by omega), if_neg (by omega)]
  have h1 : (max 0 (min (s.length : Int) b)).toNat = b.toNat := by omega
  have h2 : (max 0 (min (s.length : Int) a)).toNat = a.toNat := by omega
  rw [h1, h2, List.drop_take]

lemma isSubstring_iff {p s : List Char} :
    isSubstring p s = true ↔ ∃ i, i ≤ s.length ∧ (s.drop i).take p.length = p := by
  simp [isSubstring, List.any_eq_true, List.mem_range, Nat.lt_succ_iff]

lemma mem_of_head?_eq {α : Type} {l : List α} {a : α} (h : l.head? = some a) : a ∈ l := by
  cases l with
  | nil => simp at h
  | cons x xs =>
    simp [List.head?] at h
    simp [h]

lemma findOccsAux_sound (pat s : List Char) :
    ∀ (fuel pos i : ℕ), i ∈ findOccsAux pat s fuel pos →
      i ≤ s.length ∧ (s.drop i).take pat.length = pat := by
  intro fuel
  induction fuel with
  | zero => intro pos i h; simp [findOccsAux] at h
  | succ n ih =>
    intro pos i h
    rw [findOccsAux] at h
    rcases hh : ((List.range (s.length + 1)).filter fun j =>
        decide (pos ≤ j) && litMatchAt pat s j).head? with _ | i0
    · rw [hh] at h; simp at h
    · rw [hh] at h
      rcases (List.mem_cons).mp h with rfl | h2
      · have hmem := mem_of_head?_eq hh
        have := List.mem_filter.mp hmem
        obtain ⟨hr, hp⟩ := this
        have hr' : i < s.length + 1 := List.mem_range.mp hr
        have hm : litMatchAt pat s i = true := by
          simp only [Bool.and_eq_true] at hp
          exact hp.2
        exact ⟨by omega, by simpa [litMatchAt] using hm⟩
      · exact ih _ i h2

lemma findOccs_occursAt {pat s : List Char} {i : ℕ} (h : i ∈ findOccs pat s) :
    occursAt pat s i := by
  obtain ⟨hle, heq⟩ := findOccsAux_sound pat s _ _ i h
  refine ⟨?_, heq⟩
  have hlen := congrArg List.length heq
  simp [List.length_take, List.length_drop] at hlen
  omega

lemma mem_gen_pattern_list {left right : List Char} {o : Outcome} :
    o ∈ gen_pattern_list left right ↔
      ∃ pat ∈ find_microhomologies left right, ∃ l ∈ findOccs pat left,
        ∃ r ∈ findOccs pat right, mkOutcome left right pat l r = o := by
  simp [gen_pattern_list, List.mem_flatMap, List.mem_map]

lemma patternGC_le (p : List Char) : patternGC p ≤ p.length := by
  induction p with
  | nil => simp [patternGC]
  | cons c t ih =>
    unfold patternGC at ih ⊢
    by_cases h1 : c = 'G'
    · have h2 : ¬ c = 'C' := by rw [h1]; decide
      simp [List.filter_cons, h1, h2]
      omega
    · by_cases h2 : c = 'C'
      · simp [List.filter_cons, h1, h2]
        omega
      · simp [List.filter_cons, h1, h2]
        omega

lemma pyRound3_mono {x y : ℝ} (h : x ≤ y) : pyRound3 x ≤ pyRound3 y := by
  unfold pyRound3
  have h1 : round (1000 * x) ≤ round (1000 * y) := by
    rw [round_eq, round_eq]
    exact Int.floor_le_floor (by linarith)
  have h2 : ((round (1000 * x) : Int) : ℝ) ≤ ((round (1000 * y) : Int) : ℝ) := by
    exact_mod_cast h1
  linarith

lemma pyRound3_eq_zero {x : ℝ} (h0 : 0 ≤ x) (h : x < 1 / 2000) : pyRound3 x = 0 := by
  unfold pyRound3
  have hr : round (1000 * x) = 0 := by
    rw [round_eq]
    refine Int.floor_eq_zero_iff.mpr ?_
    constructor
    · linarith
    · linarith
  rw [hr]
  norm_num

lemma exp_gt_2000 {x : ℝ} (h : (10 : ℝ) ≤ x) : (2000 : ℝ) < Real.exp x := by
  have h1 : (2.7 : ℝ) < Real.exp 1 := by
    have := Real.exp_one_gt_d9
    linarith
  have h2 : (2.7 : ℝ) ^ (10 : ℕ) < Real.exp 1 ^ (10 : ℕ) :=
    pow_lt_pow_left₀ h1 (by norm_num) (by norm_num)
  have h3 : Real.exp 1 ^ (10 : ℕ) = Real.exp 10 := by
    rw [← Real.exp_nat_mul]
    norm_num
  have h4 : (2000 : ℝ) < (2.7 : ℝ) ^ (10 : ℕ) := by norm_num
  have h5 : Real.exp 10 ≤ Real.exp x := Real.exp_le_exp.mpr h
  linarith

lemma pattern_score_zero {w : ℝ} {dl : Int} {pat : List Char}
    (h : (2000 : ℝ) < Real.exp ((dl : ℝ) / w)) : pattern_score w dl pat = 0 := by
  have hpos : 0 < Real.exp ((dl : ℝ) / w) := Real.exp_pos _
  have h0 : 0 ≤ 1 / Real.exp ((dl : ℝ) / w) := by positivity
  have h1 : 1 / Real.exp ((dl : ℝ) / w) < 1 / 2000 := by
    rw [div_lt_div_iff₀ hpos (by norm_num)]
    linarith
  simp only [pattern_score]
  rw [pyRound3_eq_zero h0 h1]
  ring

lemma mem_keptPams {s : List Char} {cls : List (List Char)} {minF p : ℕ}
    (h : p ∈ keptPams s cls minF) :
    matchesAt s cls p = true ∧ minF < p ∧ (p : Int) + minF < (s.length : Int) := by
  unfold keptPams findPamPositions at h
  rw [List.mem_filter] at h
  obtain ⟨h1, h2⟩ := h
  rw [List.mem_filter] at h1
  obtain ⟨_, hm⟩ := h1
  simp only [Bool.and_eq_true] at h2
  obtain ⟨ha, hb⟩ := h2
  refine ⟨hm, ?_, ?_⟩
  · have := of_decide_eq_true ha
    omega
  · exact of_decide_eq_true hb

lemma mkBreak_window_length (s : List Char) (plen maxF minF : ℕ) (strand : Char) (p : ℕ)
    (hmm : minF ≤ maxF) (hp : minF < p) (hpn : (p : Int) + minF < (s.length : Int)) :
    (0 ≤ (mkBreak s plen maxF strand p).brk + maxF →
      (mkBreak s plen maxF strand p).seq.length ≤ 2 * maxF) ∧
    ((maxF : Int) ≤ (mkBreak s plen maxF strand p).brk →
      2 * minF ≤ (mkBreak s plen maxF strand p).seq.length) := by
  simp only [mkBreak]
  rw [pySlice_length]
  unfold clampN pyIdx
  constructor <;> intro h <;> split_ifs at * <;> omega

/-! Concrete inputs used by counterexamples and witnesses. -/

/-- The SpCas9 default PAM pattern "NGG". -/
def pamNGG : List Char := ['N', 'G', 'G']

/-- The character classes "NGG" expands to. -/
def clsNGG : List (List Char) := [['A', 'C', 'G', 'T'], ['G'], ['G']]

/-- A 13-base sequence whose only PAM hit is the forward NGG at offset 6. -/
def seqC3 : List Char := "AAAAAAAGGAAAA".toList

/-- A 9-base sequence whose only PAM hit is the forward NGG at offset 6,
whose motif ends exactly at the sequence end. -/
def seqC7 : List Char := "AAAAAAAGG".toList

/-- Left arm "AAA": the pattern "AA" occurs at offsets 0 and 1 (overlapping). -/
def lft3 : List Char := "AAA".toList

/-- Right arm "AA". -/
def rgt2 : List Char := "AA".toList

/-- The pattern "AA". -/
def pAA : List Char := ['A', 'A']

/-- The GC-free pattern "AT". -/
def pAT : List Char := ['A', 'T']

/-- Left arm of the spec's worked scenario. -/
def armL : List Char := "AATGC".toList

/-- Right arm of the spec's worked scenario. -/
def armR : List Char := "TGCAA".toList

/-- A 25-base sequence with an NGG hit at offset 20, far enough from both
edges for a full 20-nt spacer. -/
def s25 : List Char := "AAAAAAAAAAAAAAAAAAAAAGGAA".toList

/-- Region carrying the zero-microhomology guide of claim C1: the only PAM
hit at offset 5 yields a window "AAAAAA" with relative break 2, whose left
arm "AA" is too short for any k-mer, so no outcome is ever generated. -/
def regionC1 : Region := { chrom := "seq", start := 0, stop := 10, seq := "AAAAAAGGAA".toList }

/-- The single cut site produced for `regionC1`. -/
def cutC1 : CutSite :=
  { rel_break := 2, brk := 2, seq := "AAAAAA".toList, pam := "AGG".toList,
    guide := "AAAAAAGG".toList, strand := '+', chrom := "seq", break_abs := 2,
    g_start := -15, g_end := 8 }

/-- Region whose only PAM hit lies on the reverse strand (the CC on the
forward strand at offsets 4-5). -/
def regionC10 : Region := { chrom := "X", start := 100, stop := 112, seq := "AAAACCAAAAAA".toList }

/-- The single (reverse-strand) cut site produced for `regionC10`. -/
def cutC10 : CutSite :=
  { rel_break := 2, brk := 2, seq := "TTTTTT".toList, pam := "TGG".toList,
    guide := "TTTTTTGG".toList, strand := '-', chrom := "X", break_abs := 102,
    g_start := 85, g_end := 108 }

/-! Claim theorems. -/

/-- C2 (code_bug): the claim says a window containing 'N' is silently
excluded and the pipeline from `find_breaks` through `evaluate_guides`
raises no error; in fact the complement table of `find_breaks` has no entry
for 'N', so reverse-complementing any sequence that contains 'N' raises
KeyError before any window is ever built — the N-filter inside
`evaluate_guides` is unreachable through this pipeline. -/
theorem c2_reverse_complement_keyerror :
    find_breaks "AGGNAA".toList 1 3 pamNGG = .error "KeyError" := by decide

/-- C3 counterexample: for sequence "AAAAAAAGGAAAA" with min = max
flanking = 5 and PAM "NGG", the single returned cut-site window has length
8, strictly below `2 * min_flanking_length = 10`, because the window is
clipped at the sequence start. -/
theorem c3_counterexample :
    (find_breaks seqC3 5 5 pamNGG).map (fun bs => bs.map fun b => b.seq.length) =
      .ok [8] ∧ ¬ 2 * 5 ≤ 8 := by decide

/-- C3 (corrected): every returned window has length at most
`2 * max_flanking_length` provided its post-break edge `brk + max` is not
negative (always the case for PAMs no longer than `max`), and length at
least `2 * min_flanking_length` only when the cut is at least
`max_flanking_length` bases from the sequence start, i.e. when no left
clipping occurs; with clipping the lower bound can fail. -/
theorem c3_amended (s : List Char) (minF maxF : ℕ) (pam : List Char)
    (bs : List Break) (b : Break) (hfb : find_breaks s minF maxF pam = .ok bs)
    (hb : b ∈ bs) (hmm : minF ≤ maxF) :
    (0 ≤ b.brk + maxF → b.seq.length ≤ 2 * maxF) ∧
    ((maxF : Int) ≤ b.brk → 2 * minF ≤ b.seq.length) := by
  unfold find_breaks at hfb
  cases h1 : expandIupac pam with
  | error e => rw [h1] at hfb; exact absurd hfb (by simp)
  | ok cls =>
    rw [h1] at hfb
    cases h2 : complementAll s.reverse with
    | error e => rw [h2] at hfb; exact absurd hfb (by simp)
    | ok rev_seq =>
      rw [h2] at hfb
      have hbs : bs =
          break_dict s (keptPams s cls minF) pam.length maxF '+' ++
          break_dict rev_seq (keptPams rev_seq cls minF) pam.length maxF '-' := by
        cases hfb; rfl
      subst hbs
      rcases List.mem_append.mp hb with h | h <;>
        obtain ⟨p, hp, rfl⟩ := List.mem_map.mp h <;>
        obtain ⟨_, hlt, hup⟩ := mem_keptPams hp
      · exact mkBreak_window_length s pam.length maxF minF '+' p hmm hlt hup
      · exact mkBreak_window_length rev_seq pam.length maxF minF '-' p hmm hlt hup

/-- The single break record `find_breaks` builds for `seqC3` at min = max
flanking = 5 (window clipped at the sequence start). -/
def bC3 : Break :=
  { rel_break := 3, brk := 3, seq := "AAAAAAAG".toList, pam := "AGG".toList,
    guide := "AAAAAAAGG".toList, strand := '+' }

/-- C3 witness: the amended bounds evaluated on the concrete clipped break
of `seqC3`. -/
theorem c3_amended_witness :
    (0 ≤ bC3.brk + 5 → bC3.seq.length ≤ 2 * 5) ∧
    ((5 : Int) ≤ bC3.brk → 2 * 5 ≤ bC3.seq.length) :=
  c3_amended seqC3 5 5 pamNGG [bC3] bC3 (by decide) (by decide) (by decide)

/-- C4 counterexample: for left arm "AAA" and right arm "AA" the pattern
"AA" is discovered and occurs in the left arm at offsets 0 and 1, yet every
generated candidate outcome has left occurrence index 0: `re.finditer`
skips the occurrence at 1 because it overlaps the match at 0, so the
claimed cartesian product over all occurrences is not produced. -/
theorem c4_counterexample :
    ((gen_pattern_list lft3 rgt2).map fun o => o.left_seq_position) = [0, 0] ∧
    occursAt pAA lft3 1 ∧ pAA ∈ find_microhomologies lft3 rgt2 := by decide

/-- C4 (corrected): for each discovered pattern the simulator enumerates
only the non-overlapping, leftmost-first finditer occurrence lists of the
two arms and forms the cartesian product of those lists; every enumerated
index is a genuine occurrence, but occurrences overlapping an earlier match
of the same pattern are skipped. -/
theorem c4_amended (left right : List Char) (o : Outcome) :
    (o ∈ gen_pattern_list left right ↔
      ∃ pat ∈ find_microhomologies left right, ∃ l ∈ findOccs pat left,
        ∃ r ∈ findOccs pat right, mkOutcome left right pat l r = o) ∧
    (∀ (pat s : List Char) (i : ℕ), i ∈ findOccs pat s → occursAt pat s i) :=
  ⟨mem_gen_pattern_list, fun _ _ _ h => findOccs_occursAt h⟩

/-- C4 witness: the characterisation evaluated on the concrete arms "AAA"
and "AA". -/
theorem c4_amended_witness :
    mkOutcome lft3 rgt2 pAA 0 0 ∈ gen_pattern_list lft3 rgt2 ∧ occursAt pAA lft3 0 :=
  ⟨(c4_amended lft3 rgt2 (mkOutcome lft3 rgt2 pAA 0 0)).1.mpr
      ⟨pAA, by decide, 0, by decide, 0, by decide, rfl⟩,
    (c4_amended lft3 rgt2 (mkOutcome lft3 rgt2 pAA 0 0)).2 pAA lft3 0 (by decide)⟩

/-- C5 counterexample: for left arm "AT" and right arm "ATAT" the longest
possible k-mer of the left arm — "AT" itself, of length 2 — occurs in the
right arm, yet `find_microhomologies` returns nothing: its k-mer loop runs
from `len(left) - 1` down to 2, never testing length `len(left)`. -/
theorem c5_counterexample :
    find_microhomologies pAT "ATAT".toList = [] ∧
    isSubstring pAT "ATAT".toList = true := by decide

/-- C5 (corrected): `find_microhomologies` returns exactly the substrings
of the left arm of length 2 up to `len(left_seq) - 1` (one below the
longest possible k-mer length) that also occur in the right arm. -/
theorem c5_amended (m left right : List Char) :
    m ∈ find_microhomologies left right ↔
      2 ≤ m.length ∧ m.length < left.length ∧
      isSubstring m left = true ∧ isSubstring m right = true := by
  unfold find_microhomologies
  simp only [List.mem_flatMap, List.mem_filter, List.mem_map, List.mem_reverse,
    List.mem_range, decide_eq_true_eq]
  constructor
  · rintro ⟨k, ⟨hk, h2k⟩, ⟨⟨i, hi, rfl⟩, hsub⟩⟩
    have hik : i + k ≤ left.length := by omega
    have hlen : ((left.drop i).take k).length = k := by
      simp [List.length_take, List.length_drop]
      omega
    refine ⟨by omega, by omega, ?_, hsub⟩
    exact isSubstring_iff.mpr ⟨i, by omega, by rw [hlen]⟩
  · rintro ⟨h2, hlt, hleft, hright⟩
    obtain ⟨i, hi, heq⟩ := isSubstring_iff.mp hleft
    have hik : i + m.length ≤ left.length := by
      have := congrArg List.length heq
      simp [List.length_take, List.length_drop] at this
      omega
    exact ⟨m.length, ⟨hlt, h2⟩, ⟨⟨i, by omega, heq⟩, hright⟩⟩

/-- C7 counterexample: on the 9-base sequence "AAAAAAAGG" with
min_flanking = 2 the NGG hit at offset 6 is kept although zero bases —
fewer than min_flanking — remain after the end of the PAM motif
(6 + 3 + 2 > 9): the zero-width lookahead makes `m.end(0)` equal the match
start, so the motif length is never counted. -/
theorem c7_counterexample :
    expandIupac pamNGG = .ok clsNGG ∧ 6 ∈ keptPams seqC7 clsNGG 2 ∧
    seqC7.length < 6 + clsNGG.length + 2 := by decide

/-- C7 (corrected): a PAM match at offset `p` is kept iff
`p - min_flanking > 0` and `p + min_flanking < len(sequence)` — both
windows are measured from the match start (the zero-width lookahead end
equals its start, so the PAM motif length is ignored on the right) and the
before-check demands strictly more than min_flanking bases, not at least
min_flanking. -/
theorem c7_amended (s : List Char) (cls : List (List Char)) (minF p : ℕ) :
    p ∈ keptPams s cls minF ↔
      matchesAt s cls p = true ∧ minF < p ∧ (p : Int) + minF < (s.length : Int) := by
  unfold keptPams findPamPositions
  simp only [List.mem_filter, List.mem_range, Bool.and_eq_true, decide_eq_true_eq]
  constructor
  · rintro ⟨⟨_, hm⟩, h1, h2⟩
    exact ⟨hm, by omega, h2⟩
  · rintro ⟨hm, h1, h2⟩
    exact ⟨⟨by omega, hm⟩, by omega, h2⟩

/-- C9 counterexample: on "AAAAAAAGG" with min_flanking = 2 the NGG hit at
offset 6 is retained, but `sequence[6-20 : 6+3]` is a clamped Python slice:
the recorded guide is the whole 9-base sequence, not a string of length
20 + len(pam) = 23. -/
theorem c9_counterexample :
    (find_breaks seqC7 2 4 pamNGG).map (fun bs => bs.map fun b => b.guide.length) =
      .ok [9] ∧ ¬ 9 = 20 + pamNGG.length := by decide

/-- C9 (corrected): the recorded guide equals the 20 bases immediately
upstream of the PAM followed by the PAM occurrence itself — of length
20 + pam_len — only when the hit offset satisfies `20 ≤ p` and
`p + pam_len ≤ len(sequence)`; otherwise Python slice clamping/wrapping
yields a shorter (possibly empty) string. -/
theorem c9_amended (s : List Char) (plen maxF : ℕ) (strand : Char) (p : ℕ)
    (h20 : 20 ≤ p) (hpl : p + plen ≤ s.length) :
    (mkBreak s plen maxF strand p).pam = (s.drop p).take plen ∧
    (mkBreak s plen maxF strand p).guide =
      (s.drop (p - 20)).take 20 ++ (s.drop p).take plen ∧
    (mkBreak s plen maxF strand p).guide.length = 20 + plen := by
  have hpam : (mkBreak s plen maxF strand p).pam = (s.drop p).take plen := by
    show pySlice s p ((p : Int) + plen) = _
    rw [pySlice_of_nonneg s p ((p : Int) + plen) (by omega) (by omega) (by omega)]
    have e1 : ((p : Int)).toNat = p := by omega
    rw [e1]
    have e2 : ((p : Int) + plen).toNat - p = plen := by omega
    rw [e2]
  have hg : (mkBreak s plen maxF strand p).guide = (s.drop (p - 20)).take (20 + plen) := by
    show pySlice s ((p : Int) - 20) ((p : Int) + plen) = _
    rw [pySlice_of_nonneg s ((p : Int) - 20) ((p : Int) + plen) (by omega) (by omega) (by omega)]
    have e1 : ((p : Int) - 20).toNat = p - 20 := by omega
    rw [e1]
    have e2 : ((p : Int) + plen).toNat - (p - 20) = 20 + plen := by omega
    rw [e2]
  have hsplit : (s.drop (p - 20)).take (20 + plen) =
      (s.drop (p - 20)).take 20 ++ (s.drop p).take plen := by
    rw [List.take_add, List.drop_drop]
    have e3 : p - 20 + 20 = p := by omega
    rw [e3]
  refine ⟨hpam, by rw [hg, hsplit], ?_⟩
  rw [hg]
  simp [List.length_take, List.length_drop]
  omega

/-- C9 witness: the amended guide equation evaluated at the NGG hit at
offset 20 of the 25-base sequence `s25`. -/
theorem c9_amended_witness :
    (mkBreak s25 3 40 '+' 20).pam = (s25.drop 20).take 3 ∧
    (mkBreak s25 3 40 '+' 20).guide =
      (s25.drop (20 - 20)).take 20 ++ (s25.drop 20).take 3 ∧
    (mkBreak s25 3 40 '+' 20).guide.length = 20 + 3 :=
  c9_amended s25 3 40 '+' 20 (by decide) (by decide)

/-- C8 (confirmed): every generated outcome is built from a genuine
occurrence of its pattern in each arm, its deletion length equals
(left-arm length − left occurrence index) + right occurrence index, its
deleted sequence is the left-arm suffix from the occurrence concatenated
with the right-arm prefix up to the occurrence (whose length equals the
deletion length), and it is flagged '+' (out-of-frame) iff the deletion
length is not divisible by 3. -/
theorem c8_outcome_invariants (left right : List Char) (o : Outcome)
    (h : o ∈ gen_pattern_list left right) :
    ∃ l r : ℕ, occursAt o.pattern left l ∧ occursAt o.pattern right r ∧
      o.left_seq_position = l ∧
      o.deletion_length = ((left.length : Int) - l) + r ∧
      o.deletion_seq = left.drop l ++ right.take r ∧
      (o.deletion_seq.length : Int) = o.deletion_length ∧
      (o.frame_shift = '+' ↔ ¬ o.deletion_length % 3 = 0) := by
  obtain ⟨pat, hpat, l, hl, r, hr, rfl⟩ := mem_gen_pattern_list.mp h
  have hol : occursAt pat left l := findOccs_occursAt hl
  have hor : occursAt pat right r := findOccs_occursAt hr
  have hlL : l + pat.length ≤ left.length := hol.1
  have hrR : r + pat.length ≤ right.length := hor.1
  refine ⟨l, r, hol, hor, rfl, rfl, rfl, ?_, ?_⟩
  · show ((left.drop l ++ right.take r).length : Int) = ((left.length : Int) - l) + r
    simp [List.length_append, List.length_take, List.length_drop]
    omega
  · show (if (((left.length : Int) - l) + r) % 3 == 0 then '-' else '+') = '+' ↔
      ¬ (((left.length : Int) - l) + r) % 3 = 0
    by_cases h3 : (((left.length : Int) - l) + r) % 3 = 0 <;> simp [h3]

/-- C8 witness: the invariants evaluated on the spec's worked scenario —
arms "AATGC"/"TGCAA", pattern "TGC" at left offset 2 and right offset 0. -/
theorem c8_witness :
    ∃ l r : ℕ,
      occursAt (mkOutcome armL armR "TGC".toList 2 0).pattern armL l ∧
      occursAt (mkOutcome armL armR "TGC".toList 2 0).pattern armR r ∧
      (mkOutcome armL armR "TGC".toList 2 0).left_seq_position = l ∧
      (mkOutcome armL armR "TGC".toList 2 0).deletion_length =
        ((armL.length : Int) - l) + r ∧
      (mkOutcome armL armR "TGC".toList 2 0).deletion_seq =
        armL.drop l ++ armR.take r ∧
      ((mkOutcome armL armR "TGC".toList 2 0).deletion_seq.length : Int) =
        (mkOutcome armL armR "TGC".toList 2 0).deletion_length ∧
      ((mkOutcome armL armR "TGC".toList 2 0).frame_shift = '+' ↔
        ¬ (mkOutcome armL armR "TGC".toList 2 0).deletion_length % 3 = 0) :=
  c8_outcome_invariants armL armR (mkOutcome armL armR "TGC".toList 2 0) (by decide)

/-- C10 (confirmed): `get_cut_sites` computes every record's absolute break
coordinate as the strand-local break offset plus the region start — for a
reverse-strand record that offset is measured along the reverse complement,
counted from the region's 3' end — and derives the guide-location interval
from it; concretely, for `regionC10` the single reverse-strand cut gets
break_abs = 102 while the forward-strand coordinate of that cut is
start + (len(seq) - brk) = 110. -/
theorem c10_reverse_strand_coordinates :
    (∀ (r : Region) (minF maxF : ℕ) (pam : List Char) (css : List CutSite)
        (c : CutSite), get_cut_sites r minF maxF pam = .ok css → c ∈ css →
        c.break_abs = c.brk + r.start ∧ c.g_start = c.break_abs - 17 ∧
          c.g_end = c.break_abs + 3 + pam.length) ∧
    ((get_cut_sites regionC10 2 4 pamNGG).map
        (fun cs => cs.map fun c => (c.strand, c.break_abs)) = .ok [('-', 102)] ∧
      ¬ (102 : Int) = regionC10.start + ((regionC10.seq.length : Int) - 2)) := by
  constructor
  · intro r minF maxF pam css c h hc
    unfold get_cut_sites at h
    cases hfb : find_breaks r.seq minF maxF pam with
    | error e => rw [hfb] at h; exact absurd h (by simp)
    | ok cuts =>
      rw [hfb] at h
      have hcss : css = cuts.map fun cut =>
          ({ toBreak := cut, chrom := r.chrom, break_abs := cut.brk + r.start,
             g_start := cut.brk + r.start - 17,
             g_end := cut.brk + r.start + 3 + pam.length } : CutSite) := by
        cases h; rfl
      subst hcss
      obtain ⟨cut, _, rfl⟩ := List.mem_map.mp hc
      exact ⟨rfl, rfl, rfl⟩
  · exact ⟨by decide, by decide⟩

/-- C10 witness: the coordinate equations evaluated on the concrete
reverse-strand cut of `regionC10`. -/
theorem c10_witness :
    cutC10.break_abs = cutC10.brk + regionC10.start ∧
    cutC10.g_start = cutC10.break_abs - 17 ∧
    cutC10.g_end = cutC10.break_abs + 3 + pamNGG.length :=
  c10_reverse_strand_coordinates.1 regionC10 2 4 pamNGG [cutC10] cutC10
    (by decide) (by decide)

/-- C6 counterexample: the source rounds the exponential factor to three
decimals, so for the GC-free pattern "AT" at length weight 20 the scores of
deletion lengths 200 and 201 are both 0 (round(1/exp(10), 3) = 0): the
score does not strictly decrease with deletion length, and it differs from
the claimed unrounded value 100·exp(−200/20)·2 > 0. -/
theorem c6_counterexample :
    pattern_score 20 200 pAT = 0 ∧ pattern_score 20 201 pAT = 0 ∧
    ¬ pattern_score 20 201 pAT < pattern_score 20 200 pAT ∧
    pattern_score 20 200 pAT ≠
      100 * Real.exp (-((200 : ℝ) / 20)) *
        (((pAT.length : ℝ) - patternGC pAT) + patternGC pAT * 2) := by
  have e200 : pattern_score 20 200 pAT = 0 := by
    apply pattern_score_zero
    have h : (((200 : Int) : ℝ)) / 20 = 10 := by norm_num
    rw [h]
    exact exp_gt_2000 le_rfl
  have e201 : pattern_score 20 201 pAT = 0 := by
    apply pattern_score_zero
    exact exp_gt_2000 (by norm_num)
  refine ⟨e200, e201, by rw [e200, e201]; exact lt_irrefl 0, ?_⟩
  rw [e200]
  have h2 : ((pAT.length : ℝ) - patternGC pAT) + patternGC pAT * 2 = 2 := by
    have hgc0 : patternGC pAT = 0 := by decide
    have hl0 : pAT.length = 2 := by decide
    rw [hgc0, hl0]
    norm_num
  rw [h2]
  have hpos : (0 : ℝ) < 100 * Real.exp (-((200 : ℝ) / 20)) * 2 := by positivity
  exact (ne_of_gt hpos).symm

/-- C6 (corrected): the score equals
`100 * round3(exp(-deletion_length / length_weight)) * (non_GC + 2*GC)` —
the source rounds the exponential factor to three decimals — and for fixed
pattern composition it is non-increasing (not strictly decreasing) in the
deletion length. -/
theorem c6_amended (w : ℝ) (dl : Int) (pat : List Char) :
    pattern_score w dl pat =
      100 * pyRound3 (Real.exp (-((dl : ℝ) / w))) *
        (((pat.length - patternGC pat : ℕ) : ℝ) + 2 * (patternGC pat : ℝ)) ∧
    (0 < w → ∀ dl2 : Int, dl ≤ dl2 → pattern_score w dl2 pat ≤ pattern_score w dl pat) := by
  constructor
  · simp only [pattern_score]
    rw [Real.exp_neg, one_div]
    have hc : ((pat.length - patternGC pat : ℕ) : ℝ) = (pat.length : ℝ) - patternGC pat :=
      Nat.cast_sub (patternGC_le pat)
    rw [hc]
    ring
  · intro hw dl2 hle
    simp only [pattern_score]
    have h1 : (patternGC pat : ℝ) ≤ (pat.length : ℝ) := by
      exact_mod_cast patternGC_le pat
    have h2 : (0 : ℝ) ≤ patternGC pat := by positivity
    have hGC : (0 : ℝ) ≤ ((pat.length : ℝ) - patternGC pat) + patternGC pat * 2 := by
      linarith
    have hdiv : ((dl : ℝ)) / w ≤ ((dl2 : ℝ)) / w := by
      have hc : ((dl : ℝ)) ≤ ((dl2 : ℝ)) := by exact_mod_cast hle
      gcongr
    have hmono : pyRound3 (1 / Real.exp ((dl2 : ℝ) / w)) ≤
        pyRound3 (1 / Real.exp ((dl : ℝ) / w)) := by
      apply pyRound3_mono
      exact one_div_le_one_div_of_le (Real.exp_pos _) (Real.exp_le_exp.mpr hdiv)
    nlinarith [hmono, hGC]

/-- C6 witness: the amended equation and monotonicity evaluated at length
weight 20, pattern "AT", deletion lengths 2 ≤ 3. -/
theorem c6_amended_witness :
    pattern_score 20 3 pAT ≤ pattern_score 20 2 pAT :=
  (c6_amended 20 2 pAT).2 (by norm_num) 3 (by norm_num)

/-- C1 (code_bug): for a guide whose window yields no microhomology at all
(region `regionC1`: window "AAAAAA" with relative break 2, left arm of
length 2, no k-mer of length ≥ 2 below the arm length), the pipeline
`get_cut_sites → simulate_end_joining → evaluate_guides` does not produce
a fallback zero-score evaluation: `complete_score = oof_score / score * 100`
divides by the zero total score and raises ZeroDivisionError. -/
theorem c1_zero_division :
    (get_cut_sites regionC1 4 4 pamNGG).bind
      (fun cs => evaluate_guides 20 5 [] (simulate_end_joining 20 cs)) =
    .error "ZeroDivisionError" := by
  have h1 : get_cut_sites regionC1 4 4 pamNGG = .ok [cutC1] := by decide
  rw [h1]
  show evaluate_guides 20 5 [] (simulate_end_joining 20 [cutC1]) = _
  have hg : gen_pattern_list (pySlice cutC1.seq 0 cutC1.rel_break)
      (pySlice cutC1.seq cutC1.rel_break (cutC1.seq.length : Int)) = [] := by decide
  have h2 : simulate_end_joining 20 [cutC1] = [{ toCutSite := cutC1, pattern_list := [] }] := by
    simp [simulate_end_joining, hg, scoreSortAsc]
  rw [h2]
  have hN : 'N' ∉ cutC1.seq := by decide
  simp [evaluate_guides, hN, scoreSortDesc]

end guido
